import Mathlib

/-!
Verification of the skin-tone classification core of the `mediteasy` web
application (`app/analysis/skin_tone.py`), shallowly embedded in Lean 4.

Modelling conventions:
* Machine floating-point arithmetic is embedded as exact arithmetic over
  `ℚ` (for the integer/rational sampling stage) and `ℝ` (for the
  perceptual-space stage); tolerance claims become exact equalities.
* The external landmark detector (`mediapipe` face mesh) is embedded as an
  input: a list of per-face landmark lists, empty when no face is detected,
  mirroring `results.multi_face_landmarks`.
* The external RGB→Lab conversion (`skimage.color.rgb2lab`) is embedded as
  a parameter `lab : Q3 → R3`, applied exactly where the source applies
  `color.rgb2lab` (once to the normalized palette, once to the normalized
  sampled pixels).  All theorems hold for every such transform; scenario
  theorems state the (true of the real transform) hypotheses they need.
* A pixel of the OpenCV image is a BGR triple of 8-bit channel values.
-/

namespace Mediteasy

abbrev Q3 := ℚ × ℚ × ℚ
abbrev R3 := ℝ × ℝ × ℝ
abbrev Pixel := ℕ × ℕ × ℕ

/-- The fixed palette catalog: `skin_palette` from `skin_tone.py`, a list of
(name, RGB triple, warm/cool/neutral group) entries, in source order. -/
def skin_palette : List (String × (ℕ × ℕ × ℕ) × String) :=
  [("Porcelain", (255, 226, 220), "cool"),
   ("Fair Pink", (255, 214, 200), "cool"),
   ("Light Ivory", (245, 205, 180), "neutral"),
   ("Warm Sand", (235, 190, 160), "warm"),
   ("Beige", (220, 175, 150), "neutral"),
   ("Soft Tan", (205, 160, 130), "warm"),
   ("Tan", (190, 145, 115), "warm"),
   ("Honey", (175, 130, 105), "warm"),
   ("Caramel", (160, 115, 95), "warm"),
   ("Chestnut", (145, 100, 85), "warm"),
   ("Bronze", (130, 85, 70), "warm"),
   ("Deep", (115, 70, 60), "cool")]

/-- `palette_rgb = np.array([item[1] for item in skin_palette]) / 255.0`:
each catalog RGB triple normalized channelwise to `[0,1]`. -/
def palette_rgb : List Q3 :=
  skin_palette.map (fun e =>
    ((e.2.1.1 : ℚ) / 255, (e.2.1.2.1 : ℚ) / 255, (e.2.1.2.2 : ℚ) / 255))

/-- `palette_lab = color.rgb2lab(palette_rgb ...)`: the perceptual-space
image of the normalized palette under the transform `lab`. -/
def palette_lab (lab : Q3 → R3) : List R3 := palette_rgb.map lab

/-- A face-mesh landmark: fractional image coordinates (`lm.x`, `lm.y`). -/
structure Landmark where
  x : ℚ
  y : ℚ
deriving DecidableEq

/-- A decoded three-channel OpenCV image: height, width, and the BGR pixel
at row `y`, column `x` (`img[y, x]`). -/
structure Image where
  h : ℕ
  w : ℕ
  pix : ℕ → ℕ → Pixel

/-- Python `int()` applied to an exact rational: truncation toward zero. -/
def pyTrunc (q : ℚ) : ℤ := Int.tdiv q.num q.den

/-- `mouth = list(range(61, 89))`. -/
def mouth : List ℕ := List.range' 61 28

/-- `eyes = list(range(33, 133))`. -/
def eyes : List ℕ := List.range' 33 100

/-- `exclude = set(mouth + eyes)`: the excluded landmark indices. -/
def excludeSet : List ℕ := mouth ++ eyes

/-- The sampling loop of `analyze_face_color`, carrying the running
landmark index `idx`: skip excluded indices, truncate the scaled
coordinates to integers, keep the pixel when both coordinates are in
bounds (`0 <= x < w and 0 <= y < h`). -/
def samplePixelsAux (img : Image) : ℕ → List Landmark → List Pixel
  | _, [] => []
  | idx, lm :: rest =>
    let tail := samplePixelsAux img (idx + 1) rest
    if idx ∈ excludeSet then tail
    else
      let x := pyTrunc (lm.x * (img.w : ℚ))
      let y := pyTrunc (lm.y * (img.h : ℚ))
      if 0 ≤ x ∧ x < (img.w : ℤ) ∧ 0 ≤ y ∧ y < (img.h : ℤ) then
        img.pix y.toNat x.toNat :: tail
      else tail

/-- `skin_pixels`: the surviving BGR samples, in landmark order. -/
def samplePixels (img : Image) (lms : List Landmark) : List Pixel :=
  samplePixelsAux img 0 lms

/-- `skin_rgb = skin_pixels[:, ::-1] / 255.0`: channel reversal from BGR
to RGB and normalization to `[0,1]`. -/
def skin_rgb (ps : List Pixel) : List Q3 :=
  ps.map (fun p => ((p.2.2 : ℚ) / 255, (p.2.1 : ℚ) / 255, (p.1 : ℚ) / 255))

/-- `np.mean(_, axis=0)`: the componentwise arithmetic mean of a list of
perceptual-space points. -/
noncomputable def labMean (l : List R3) : R3 :=
  ((l.map (fun v => v.1)).sum / l.length,
   (l.map (fun v => v.2.1)).sum / l.length,
   (l.map (fun v => v.2.2)).sum / l.length)

/-- `user_lab = np.mean(color.rgb2lab(skin_rgb), axis=0)`. -/
noncomputable def user_lab (lab : Q3 → R3) (ps : List Pixel) : R3 :=
  labMean ((skin_rgb ps).map lab)

/-- Euclidean distance between two perceptual-space points
(`np.linalg.norm` of the componentwise difference). -/
noncomputable def dist3 (a b : R3) : ℝ :=
  Real.sqrt ((a.1 - b.1) ^ 2 + (a.2.1 - b.2.1) ^ 2 + (a.2.2 - b.2.2) ^ 2)

/-- `deltas = np.linalg.norm(palette_lab - user_lab, axis=1)`. -/
noncomputable def deltasOf (lab : Q3 → R3) (u : R3) : List ℝ :=
  (palette_lab lab).map (fun p => dist3 p u)

/-- `eps = 1e-6`. -/
noncomputable def eps : ℝ := 1 / 1000000

/-- `weights = 1 / (deltas + eps)`. -/
noncomputable def rawWeights (ds : List ℝ) : List ℝ :=
  ds.map (fun d => 1 / (d + eps))

/-- `weights = weights / weights.sum()`. -/
noncomputable def normWeights (ds : List ℝ) : List ℝ :=
  (rawWeights ds).map (fun v => v / (rawWeights ds).sum)

open Classical

/-- `np.argmin`: the least index attaining the minimum of the list (`0`
on the empty list, which the source never hits). -/
noncomputable def np_argmin : List ℝ → ℕ
  | [] => 0
  | a :: t => if ∀ x ∈ t, a ≤ x then 0 else np_argmin t + 1

/-- The running warm/cool/neutral totals (`group_sum` in the source). -/
structure GroupSums where
  warm : ℝ
  cool : ℝ
  neutral : ℝ

/-- One loop step `group_sum[group] += float(weight)`. -/
def addGroup (gs : GroupSums) (g : String) (v : ℝ) : GroupSums :=
  if g = "warm" then { gs with warm := gs.warm + v }
  else if g = "cool" then { gs with cool := gs.cool + v }
  else if g = "neutral" then { gs with neutral := gs.neutral + v }
  else gs

/-- The `group_sum` accumulation over `zip(skin_palette, weights)`. -/
def groupFold (l : List ((String × (ℕ × ℕ × ℕ) × String) × ℝ)) : GroupSums :=
  l.foldl (fun gs e => addGroup gs e.1.2.2 e.2) ⟨0, 0, 0⟩

/-- `group_sum` after the loop, as a function of the normalized weights. -/
def groupSum (ws : List ℝ) : GroupSums := groupFold (skin_palette.zip ws)

/-- One entry of `detailed_composition`: `{name, percentage, group}`. -/
structure CompEntry where
  name : String
  percentage : ℝ
  group : String

/-- `composition_details`: for each palette entry, its name, its weight
times 100, and its group, in catalog order. -/
def compDetails (ws : List ℝ) : List CompEntry :=
  (skin_palette.zip ws).map (fun e => ⟨e.1.1, e.2 * 100, e.1.2.2⟩)

/-- The success payload of `analyze_face_color` (the fields of the
`analysis_complete` dictionary). -/
structure AnalysisOk where
  best_match : String
  warm_cool_neutral_base : GroupSums
  detailed_composition : List CompEntry
  raw_weights : List ℝ
  raw_group_sum : GroupSums
  raw_best_idx : ℕ

/-- The success path of `analyze_face_color`, from the sampled pixels on:
mean Lab color, distances, argmin best match, inverse-distance weights,
group sums and composition details. -/
noncomputable def analyzeOk (lab : Q3 → R3) (img : Image)
    (lms : List Landmark) : AnalysisOk :=
  let u := user_lab lab (samplePixels img lms)
  let ds := deltasOf lab u
  let best_idx := np_argmin ds
  let wsn := normWeights ds
  let gs := groupSum wsn
  { best_match := (skin_palette.getD best_idx ("", (0, 0, 0), "")).1
    warm_cool_neutral_base :=
      { warm := gs.warm * 100, cool := gs.cool * 100, neutral := gs.neutral * 100 }
    detailed_composition := compDetails wsn
    raw_weights := wsn
    raw_group_sum := gs
    raw_best_idx := best_idx }

/-- The tagged result: a structured error dictionary (`status: error` with
a message) or the full analysis dictionary (`status: analysis_complete`). -/
inductive AnalysisResult where
  | error (message : String)
  | complete (ok : AnalysisOk)

/-- `analyze_face_color` on a well-formed three-channel image: the landmark
detector output `faces` plays the role of `results.multi_face_landmarks`
(empty list = no detection); the first face is used. -/
noncomputable def analyze_face_color (lab : Q3 → R3) (img : Image)
    (faces : List (List Landmark)) : AnalysisResult :=
  match faces with
  | [] => .error "No face detected in the image."
  | lms :: _ =>
    if samplePixels img lms = [] then
      .error "Face detected, but no valid skin pixels found."
    else
      .complete (analyzeOk lab img lms)

/-- `analyze_face_color` as entered with a raw ndarray, before the shape is
known to be well-formed.  Modelled from Python/NumPy/OpenCV/skimage
semantics at lines 45-48 and 71-75 of the source: `h, w, _ = img.shape`
raises `ValueError` unless the array has exactly three dimensions;
`cv2.cvtColor(..., COLOR_BGR2RGB)` accepts non-empty three- or
four-channel input (its source-channel set is `{3, 4}`) and raises
`cv2.error` otherwise.  A non-empty four-channel (BGRA) image therefore
proceeds into the classifier: landmark detection runs, and index
exclusion and bounds filtering behave exactly as on a three-channel image
(they depend only on the landmark coordinates and the image dimensions,
so the three-channel `pix` stands in for the BGRA data), producing the
tagged no-face and no-valid-skin-pixels results as usual; but once skin
samples survive, `skimage.color.rgb2lab` raises `ValueError` on the
four-channel sample array (it requires size 3 along the channel axis).
`Except.error` models a raised (uncaught) exception; `Except.ok` carries
the structured `AnalysisResult` dictionary. -/
noncomputable def analyze_face_color_raw (lab : Q3 → R3) (shape : List ℕ)
    (pix : ℕ → ℕ → Pixel) (faces : List (List Landmark)) :
    Except String AnalysisResult :=
  match shape with
  | [hh, ww, c] =>
    if (c = 3 ∨ c = 4) ∧ 0 < hh ∧ 0 < ww then
      if c = 3 then
        .ok (analyze_face_color lab ⟨hh, ww, pix⟩ faces)
      else
        match faces with
        | [] => .ok (.error "No face detected in the image.")
        | lms :: _ =>
          if samplePixels ⟨hh, ww, pix⟩ lms = [] then
            .ok (.error "Face detected, but no valid skin pixels found.")
          else
            .error "ValueError: rgb2lab needs size 3 along channel axis"
    else
      .error "cv2.error: cvtColor"
  | _ => .error "ValueError: not enough values to unpack"

/-- A concrete injective stand-in for the perceptual transform, used to
instantiate scenario theorems: the inclusion of `ℚ` into `ℝ`, applied
componentwise. -/
noncomputable def idLab : Q3 → R3 := fun v => ((v.1 : ℝ), (v.2.1 : ℝ), (v.2.2 : ℝ))

/-- The synthetic scenario image: 10×10, every pixel the BGR encoding of
the catalog entry "Honey" (RGB (175, 130, 105)). -/
def honeyImg : Image := ⟨10, 10, fun _ _ => (105, 130, 175)⟩

/-- The scenario landmark at fractional coordinates (0.5, 0.5). -/
def honeyLm : Landmark := ⟨1 / 2, 1 / 2⟩

/-- A landmark whose scaled coordinates fall outside every 10×10 image. -/
def outLm : Landmark := ⟨2, 2⟩

/-- Default entry used with `List.getD` on `detailed_composition`. -/
def cdef : CompEntry := ⟨"", 0, ""⟩

/-- The percentage of `detailed_composition[i]`. -/
noncomputable def compPct (r : AnalysisOk) (i : ℕ) : ℝ :=
  (r.detailed_composition.getD i cdef).percentage

end Mediteasy

namespace Mediteasy

/-- Unfold `List.getD` to `getElem` at an in-bounds index. -/
lemma list_getD_eq (l : List ℝ) (j : ℕ) (h : j < l.length) : l.getD j 0 = l[j] := by
  simp [List.getD_eq_getElem?_getD, List.getElem?_eq_getElem h]

/-- `np.argmin` of a nonempty list is an in-bounds index. -/
lemma np_argmin_lt (l : List ℝ) (h : l ≠ []) : np_argmin l < l.length := by
  induction l with
  | nil => exact absurd rfl h
  | cons a t ih =>
    by_cases hc : ∀ x ∈ t, a ≤ x
    · simp only [np_argmin, if_pos hc, List.length_cons]
      omega
    · have ht : t ≠ [] := by rintro rfl; exact hc (by simp)
      have := ih ht
      simp only [np_argmin, if_neg hc, List.length_cons]
      omega

/-- The value at `np.argmin` is a minimum of the list. -/
lemma np_argmin_min (l : List ℝ) (j : ℕ) (hj : j < l.length) :
    l.getD (np_argmin l) 0 ≤ l.getD j 0 := by
  induction l generalizing j with
  | nil => simp at hj
  | cons a t ih =>
    by_cases hc : ∀ x ∈ t, a ≤ x
    · simp only [np_argmin, if_pos hc, List.getD_cons_zero]
      match j with
      | 0 => simp
      | k + 1 =>
        simp only [List.getD_cons_succ]
        have hk : k < t.length := by simpa using hj
        have hmem : t.getD k 0 ∈ t := by
          rw [list_getD_eq t k hk]; exact List.getElem_mem hk
        exact hc _ hmem
    · simp only [np_argmin, if_neg hc, List.getD_cons_succ]
      match j with
      | 0 =>
        simp only [List.getD_cons_zero]
        push_neg at hc
        obtain ⟨x, hx, hxa⟩ := hc
        obtain ⟨n, hn, rfl⟩ := List.mem_iff_getElem.mp hx
        have hle := ih n hn
        rw [list_getD_eq t n hn] at hle
        linarith
      | k + 1 =>
        simp only [List.getD_cons_succ]
        exact ih k (by simpa using hj)

/-- Every index strictly below `np.argmin` holds a strictly larger value:
`np.argmin` returns the first index attaining the minimum. -/
lemma np_argmin_first (l : List ℝ) (j : ℕ) (hj : j < np_argmin l) :
    l.getD (np_argmin l) 0 < l.getD j 0 := by
  induction l generalizing j with
  | nil => simp [np_argmin] at hj
  | cons a t ih =>
    by_cases hc : ∀ x ∈ t, a ≤ x
    · simp only [np_argmin, if_pos hc] at hj
      omega
    · simp only [np_argmin, if_neg hc] at hj ⊢
      match j with
      | 0 =>
        simp only [List.getD_cons_succ, List.getD_cons_zero]
        push_neg at hc
        obtain ⟨x, hx, hxa⟩ := hc
        obtain ⟨n, hn, rfl⟩ := List.mem_iff_getElem.mp hx
        have hmin := np_argmin_min t n hn
        rw [list_getD_eq t n hn] at hmin
        linarith
      | k + 1 =>
        simp only [List.getD_cons_succ]
        exact ih k (by omega)

/-- Characterization: an in-bounds index attaining the minimum, strictly
below every earlier value, is `np.argmin`. -/
lemma np_argmin_eq (l : List ℝ) (k : ℕ) (hk : k < l.length)
    (hmin : ∀ j, j < l.length → l.getD k 0 ≤ l.getD j 0)
    (hfirst : ∀ j, j < k → l.getD k 0 < l.getD j 0) : np_argmin l = k := by
  induction l generalizing k with
  | nil => simp at hk
  | cons a t ih =>
    match k with
    | 0 =>
      have hc : ∀ x ∈ t, a ≤ x := by
        intro x hx
        obtain ⟨n, hn, rfl⟩ := List.mem_iff_getElem.mp hx
        have h1 := hmin (n + 1) (by simpa using hn)
        simp only [List.getD_cons_zero, List.getD_cons_succ] at h1
        rwa [list_getD_eq t n hn] at h1
      simp only [np_argmin, if_pos hc]
    | k' + 1 =>
      have hkt : k' < t.length := by simpa using hk
      have hc : ¬ ∀ x ∈ t, a ≤ x := by
        intro hall
        have h0 := hfirst 0 (Nat.succ_pos _)
        have hmem : t.getD k' 0 ∈ t := by
          rw [list_getD_eq t k' hkt]; exact List.getElem_mem hkt
        have h2 := hall _ hmem
        simp only [List.getD_cons_succ, List.getD_cons_zero] at h0
        linarith
      have ht := ih k' hkt
        (fun j hj => by
          have := hmin (j + 1) (by simpa using hj)
          simpa using this)
        (fun j hj => by
          have := hfirst (j + 1) (by omega)
          simpa using this)
      simp only [np_argmin, if_neg hc, ht]

/-- `eps` is strictly positive. -/
lemma eps_pos : (0 : ℝ) < eps := by norm_num [eps]

/-- Euclidean perceptual distance is nonnegative. -/
lemma dist3_nonneg (a b : R3) : 0 ≤ dist3 a b := Real.sqrt_nonneg _

/-- Euclidean perceptual distance of a point to itself is zero. -/
lemma dist3_self (a : R3) : dist3 a a = 0 := by simp [dist3]

/-- Euclidean perceptual distance between distinct points is positive. -/
lemma dist3_pos (a b : R3) (h : a ≠ b) : 0 < dist3 a b := by
  apply Real.sqrt_pos.mpr
  rcases lt_or_le 0 ((a.1 - b.1) ^ 2 + (a.2.1 - b.2.1) ^ 2 + (a.2.2 - b.2.2) ^ 2) with hlt | hle
  · exact hlt
  · exfalso
    have h1 : (a.1 - b.1) ^ 2 = 0 := by nlinarith [sq_nonneg (a.1 - b.1), sq_nonneg (a.2.1 - b.2.1), sq_nonneg (a.2.2 - b.2.2)]
    have h2 : (a.2.1 - b.2.1) ^ 2 = 0 := by nlinarith [sq_nonneg (a.1 - b.1), sq_nonneg (a.2.1 - b.2.1), sq_nonneg (a.2.2 - b.2.2)]
    have h3 : (a.2.2 - b.2.2) ^ 2 = 0 := by nlinarith [sq_nonneg (a.1 - b.1), sq_nonneg (a.2.1 - b.2.1), sq_nonneg (a.2.2 - b.2.2)]
    apply h
    have e1 : a.1 = b.1 := by nlinarith [sq_nonneg (a.1 - b.1)]
    have e2 : a.2.1 = b.2.1 := by nlinarith [sq_nonneg (a.2.1 - b.2.1)]
    have e3 : a.2.2 = b.2.2 := by nlinarith [sq_nonneg (a.2.2 - b.2.2)]
    exact Prod.ext e1 (Prod.ext e2 e3)

/-- Every entry of `deltas` is nonnegative. -/
lemma deltasOf_nonneg (lab : Q3 → R3) (u : R3) :
    ∀ x ∈ deltasOf lab u, 0 ≤ x := by
  intro x hx
  simp only [deltasOf, List.mem_map] at hx
  obtain ⟨p, _, rfl⟩ := hx
  exact dist3_nonneg p u

/-- `deltas` always has exactly twelve entries. -/
lemma deltasOf_length (lab : Q3 → R3) (u : R3) : (deltasOf lab u).length = 12 := by
  simp [deltasOf, palette_lab, palette_rgb, skin_palette]

/-- Every raw inverse-distance weight over nonnegative distances is positive. -/
lemma rawWeights_pos (ds : List ℝ) (hds : ∀ x ∈ ds, 0 ≤ x) :
    ∀ v ∈ rawWeights ds, 0 < v := by
  intro v hv
  simp only [rawWeights, List.mem_map] at hv
  obtain ⟨d, hd, rfl⟩ := hv
  have := hds d hd
  have := eps_pos
  positivity

/-- The raw weight sum over a nonempty nonnegative distance list is positive. -/
lemma rawWeights_sum_pos (ds : List ℝ) (hds : ∀ x ∈ ds, 0 ≤ x) (hne : ds ≠ []) :
    0 < (rawWeights ds).sum := by
  apply List.sum_pos _ (rawWeights_pos ds hds)
  simp [rawWeights, hne]

/-- Summing a list divided termwise by a constant divides the sum. -/
lemma list_sum_map_div (l : List ℝ) (c : ℝ) :
    (l.map (fun x => x / c)).sum = l.sum / c := by
  induction l with
  | nil => simp
  | cons a t ih => simp [ih, add_div]

/-- The normalized weights sum to one. -/
lemma normWeights_sum (ds : List ℝ) (hds : ∀ x ∈ ds, 0 ≤ x) (hne : ds ≠ []) :
    (normWeights ds).sum = 1 := by
  have hpos := rawWeights_sum_pos ds hds hne
  simp only [normWeights, list_sum_map_div]
  exact div_self (ne_of_gt hpos)

end Mediteasy

namespace Mediteasy

/-- `List.getD` at an in-bounds index of a mapped list. -/
lemma list_getD_map {α β : Type} (f : α → β) (l : List α) (i : ℕ)
    (hi : i < l.length) (d : α) (d2 : β) :
    (l.map f).getD i d2 = f (l.getD i d) := by
  rw [List.getD_eq_getElem?_getD, List.getD_eq_getElem?_getD,
    List.getElem?_eq_getElem (by simpa using hi), List.getElem?_eq_getElem hi]
  simp

/-- A list of length twelve is an explicit twelve-element list. -/
lemma exists_twelve (l : List ℝ) (hl : l.length = 12) :
    ∃ a0 a1 a2 a3 a4 a5 a6 a7 a8 a9 a10 a11,
      l = [a0, a1, a2, a3, a4, a5, a6, a7, a8, a9, a10, a11] := by
  rcases l with _ | ⟨a0, _ | ⟨a1, _ | ⟨a2, _ | ⟨a3, _ | ⟨a4, _ | ⟨a5, _ | ⟨a6, _ | ⟨a7, _ | ⟨a8, _ | ⟨a9, _ | ⟨a10, _ | ⟨a11, _ | ⟨a12, t⟩⟩⟩⟩⟩⟩⟩⟩⟩⟩⟩⟩⟩ <;>
    simp only [List.length_cons, List.length_nil] at hl <;> try omega
  exact ⟨a0, a1, a2, a3, a4, a5, a6, a7, a8, a9, a10, a11, rfl⟩

/-- Normalization preserves the length of the weight list. -/
lemma normWeights_length (ds : List ℝ) : (normWeights ds).length = ds.length := by
  simp [normWeights, rawWeights]

/-- `detailed_composition` built from twelve weights has twelve entries. -/
lemma compDetails_length (ws : List ℝ) (h : ws.length = 12) :
    (compDetails ws).length = 12 := by
  simp [compDetails, h, skin_palette]

/-- The twelve normalized weights of a successful run. -/
noncomputable def weightsOf (lab : Q3 → R3) (img : Image)
    (lms : List Landmark) : List ℝ :=
  normWeights (deltasOf lab (user_lab lab (samplePixels img lms)))

/-- The twelve perceptual distances of a successful run. -/
noncomputable def runDeltas (lab : Q3 → R3) (img : Image)
    (lms : List Landmark) : List ℝ :=
  deltasOf lab (user_lab lab (samplePixels img lms))

/-- `analyzeOk` unpacked in terms of the named stage functions. -/
lemma analyzeOk_eq (lab : Q3 → R3) (img : Image) (lms : List Landmark) :
    analyzeOk lab img lms =
      { best_match := (skin_palette.getD (np_argmin (runDeltas lab img lms)) ("", (0, 0, 0), "")).1
        warm_cool_neutral_base :=
          { warm := (groupSum (weightsOf lab img lms)).warm * 100
            cool := (groupSum (weightsOf lab img lms)).cool * 100
            neutral := (groupSum (weightsOf lab img lms)).neutral * 100 }
        detailed_composition := compDetails (weightsOf lab img lms)
        raw_weights := weightsOf lab img lms
        raw_group_sum := groupSum (weightsOf lab img lms)
        raw_best_idx := np_argmin (runDeltas lab img lms) } := rfl

/-- Truncation toward zero sends every rational strictly between `-1` and
`0` to `0`. -/
lemma pyTrunc_neg_small (q : ℚ) (h1 : -1 < q) (h2 : q < 0) : pyTrunc q = 0 := by
  have hden : (0 : ℚ) < (q.den : ℚ) := by exact_mod_cast q.den_pos
  have hnum : q.num < 0 := by
    by_contra hge
    push_neg at hge
    rw [Rat.num_nonneg] at hge
    linarith
  have hq : (q.num : ℚ) = q * (q.den : ℚ) := by
    have hd : ((q.den : ℚ)) ≠ 0 := ne_of_gt hden
    field_simp [Rat.num_div_den q]
  have hlow : -((q.den : ℚ)) < (q.num : ℚ) := by
    rw [hq]
    nlinarith
  have hlowZ : -(q.den : ℤ) < q.num := by exact_mod_cast hlow
  unfold pyTrunc
  have hrw : q.num = -(-q.num) := by ring
  rw [hrw, Int.neg_tdiv, Int.tdiv_eq_zero_of_lt (by omega) (by omega), neg_zero]

/-- The scenario image and landmark yield exactly one sample: the Honey
BGR pixel at row 5, column 5. -/
lemma honey_samples : samplePixels honeyImg [honeyLm] = [(105, 130, 175)] := by
  simp [samplePixels, samplePixelsAux, honeyImg, honeyLm, pyTrunc,
    (by decide : (0 : ℕ) ∉ excludeSet)]
  norm_num

/-- The out-of-bounds landmark yields no samples on the scenario image. -/
lemma out_samples : samplePixels honeyImg [outLm] = [] := by
  simp [samplePixels, samplePixelsAux, honeyImg, outLm, pyTrunc,
    (by decide : (0 : ℕ) ∉ excludeSet)]
  norm_num

/-- C10: the mouth exclusion range (indices 61 through 88) is entirely
contained in the eye exclusion range (indices 33 through 132), so the
effective exclusion set is exactly the hundred consecutive indices 33
through 132; every other index is a candidate skin-sample point. -/
theorem exclusion_ranges_collapse :
    (∀ i ∈ mouth, i ∈ eyes) ∧
    (∀ idx : ℕ, idx ∈ excludeSet ↔ 33 ≤ idx ∧ idx ≤ 132) := by
  constructor
  · intro i hi
    simp only [mouth, eyes, List.mem_range'] at hi ⊢
    obtain ⟨k, hk, rfl⟩ := hi
    exact ⟨28 + k, by omega, by omega⟩
  · intro idx
    simp only [excludeSet, mouth, eyes, List.mem_append, List.mem_range']
    constructor
    · rintro (⟨k, hk, rfl⟩ | ⟨k, hk, rfl⟩) <;> omega
    · intro hrange
      exact Or.inr ⟨idx - 33, by omega, by omega⟩

/-- C9: a landmark whose scaled x-coordinate lies strictly between `-1`
and `0` gets integer coordinate `0`, passes the bounds check, and is
sampled at pixel column `0` rather than discarded (and symmetrically the
truncated y-coordinate selects the row). -/
theorem negative_fraction_sampled_at_column_zero (img : Image) (lm : Landmark)
    (hx1 : -1 < lm.x * (img.w : ℚ)) (hx2 : lm.x * (img.w : ℚ) < 0)
    (hy1 : 0 ≤ pyTrunc (lm.y * (img.h : ℚ)))
    (hy2 : pyTrunc (lm.y * (img.h : ℚ)) < (img.h : ℤ)) :
    pyTrunc (lm.x * (img.w : ℚ)) = 0 ∧
    samplePixels img [lm] = [img.pix (pyTrunc (lm.y * (img.h : ℚ))).toNat 0] := by
  have hx0 : pyTrunc (lm.x * (img.w : ℚ)) = 0 := pyTrunc_neg_small _ hx1 hx2
  have hwpos : 0 < img.w := by
    rcases Nat.eq_zero_or_pos img.w with hw0 | hpos
    · rw [hw0] at hx2
      simp at hx2
    · exact hpos
  refine ⟨hx0, ?_⟩
  simp only [samplePixels, samplePixelsAux, (by decide : ((0 : ℕ) ∈ excludeSet) = False),
    if_false, hx0]
  rw [if_pos ⟨le_refl 0, by exact_mod_cast hwpos, hy1, hy2⟩]
  rfl

/-- C3: the classifier returns a tagged error result rather than raising
for expected conditions: no detected face yields the no-face error
message; a detected face whose landmarks all fail exclusion or bounds
filtering yields the no-valid-skin-pixels error message; any surviving
sample yields the full `analysis_complete` result. -/
theorem error_results_tagged (lab : Q3 → R3) (img : Image)
    (faces : List (List Landmark)) :
    (faces = [] →
      analyze_face_color lab img faces = .error "No face detected in the image.") ∧
    (∀ lms rest, faces = lms :: rest → samplePixels img lms = [] →
      analyze_face_color lab img faces =
        .error "Face detected, but no valid skin pixels found.") ∧
    (∀ lms rest, faces = lms :: rest → samplePixels img lms ≠ [] →
      analyze_face_color lab img faces = .complete (analyzeOk lab img lms)) := by
  refine ⟨?_, ?_, ?_⟩
  · rintro rfl
    rfl
  · rintro lms rest rfl hs
    simp [analyze_face_color, hs]
  · rintro lms rest rfl hs
    simp [analyze_face_color, hs]

/-- Witness for C3 at concrete inputs: empty detection, a face with only
an out-of-bounds landmark, and the Honey scenario face. -/
theorem error_results_tagged_witness :
    analyze_face_color idLab honeyImg [] = .error "No face detected in the image." ∧
    analyze_face_color idLab honeyImg [[outLm]] =
      .error "Face detected, but no valid skin pixels found." ∧
    analyze_face_color idLab honeyImg [[honeyLm]] =
      .complete (analyzeOk idLab honeyImg [honeyLm]) :=
  ⟨(error_results_tagged idLab honeyImg []).1 rfl,
   (error_results_tagged idLab honeyImg [[outLm]]).2.1 [outLm] [] rfl out_samples,
   (error_results_tagged idLab honeyImg [[honeyLm]]).2.2 [honeyLm] [] rfl
     (by rw [honey_samples]; simp)⟩

/-- C7: for a fixed image and fixed landmark-detector output the
classification is deterministic: the embedding is a pure function of the
image and the landmark set, with no randomness and no cross-call state,
so two calls on identical inputs return identical results (best match,
weights and percentages included). -/
theorem analyze_deterministic (lab : Q3 → R3) (img img2 : Image)
    (faces faces2 : List (List Landmark))
    (himg : img = img2) (hfaces : faces = faces2) :
    analyze_face_color lab img faces = analyze_face_color lab img2 faces2 := by
  rw [himg, hfaces]

/-- Witness for C7: two calls on the Honey scenario input coincide. -/
theorem analyze_deterministic_witness :
    analyze_face_color idLab honeyImg [[honeyLm]] =
      analyze_face_color idLab honeyImg [[honeyLm]] :=
  analyze_deterministic idLab honeyImg honeyImg [[honeyLm]] [[honeyLm]] rfl rfl

/-- C8 counterexample: on a two-dimensional 10×10 array (wrong channel
structure) the classifier raises an exception (the `ValueError` from
`h, w, _ = img.shape`) instead of returning a structured error result. -/
theorem malformed_image_crashes_cex :
    analyze_face_color_raw idLab [10, 10] (fun _ _ => (0, 0, 0)) [] =
      Except.error "ValueError: not enough values to unpack" := rfl

/-- C8 amended: the classifier does not fail predictably with a
structured error on malformed input.  An array of the wrong
dimensionality raises `ValueError` at the shape unpacking; an empty
image, or one with one or two channels, raises `cv2.error` at the color
conversion; a non-empty four-channel image passes the conversion and
yields the tagged no-face (or no-valid-skin-pixels) result as usual, but
raises `ValueError` from the Lab conversion once skin samples survive. -/
theorem malformed_image_crashes (lab : Q3 → R3) (shape : List ℕ)
    (pix : ℕ → ℕ → Pixel) (faces : List (List Landmark)) :
    ((∀ hh ww c, shape ≠ [hh, ww, c]) →
      analyze_face_color_raw lab shape pix faces =
        .error "ValueError: not enough values to unpack") ∧
    (∀ hh ww c, shape = [hh, ww, c] → ¬((c = 3 ∨ c = 4) ∧ 0 < hh ∧ 0 < ww) →
      analyze_face_color_raw lab shape pix faces = .error "cv2.error: cvtColor") ∧
    (∀ hh ww, shape = [hh, ww, 4] → 0 < hh → 0 < ww → faces = [] →
      analyze_face_color_raw lab shape pix faces =
        .ok (.error "No face detected in the image.")) ∧
    (∀ hh ww lms rest, shape = [hh, ww, 4] → 0 < hh → 0 < ww →
      faces = lms :: rest → samplePixels ⟨hh, ww, pix⟩ lms ≠ [] →
      analyze_face_color_raw lab shape pix faces =
        .error "ValueError: rgb2lab needs size 3 along channel axis") := by
  refine ⟨?_, ?_, ?_, ?_⟩
  · intro hno3
    rcases shape with _ | ⟨a, _ | ⟨b, _ | ⟨c, _ | ⟨d, t⟩⟩⟩⟩
    · rfl
    · rfl
    · rfl
    · exact absurd rfl (hno3 a b c)
    · rfl
  · rintro hh ww c rfl hno
    simp only [analyze_face_color_raw, if_neg hno]
  · rintro hh ww rfl hh0 hw0 rfl
    simp [analyze_face_color_raw, hh0, hw0]
  · rintro hh ww lms rest rfl hh0 hw0 rfl hs
    simp [analyze_face_color_raw, hh0, hw0, hs]

/-- Witness for C8 amended: an empty three-channel array raises at the
color conversion; a non-empty four-channel array with no detected face
returns the tagged no-face result; a non-empty four-channel array with
the scenario landmark raises at the Lab conversion. -/
theorem malformed_image_crashes_witness :
    analyze_face_color_raw idLab [0, 10, 3] (fun _ _ => (0, 0, 0)) [] =
      .error "cv2.error: cvtColor" ∧
    analyze_face_color_raw idLab [10, 10, 4] (fun _ _ => (0, 0, 0)) [] =
      .ok (.error "No face detected in the image.") ∧
    analyze_face_color_raw idLab [10, 10, 4] (fun _ _ => (0, 0, 0)) [[honeyLm]] =
      .error "ValueError: rgb2lab needs size 3 along channel axis" :=
  ⟨(malformed_image_crashes idLab [0, 10, 3] (fun _ _ => (0, 0, 0)) []).2.1
      0 10 3 rfl (by decide),
   (malformed_image_crashes idLab [10, 10, 4] (fun _ _ => (0, 0, 0)) []).2.2.1
      10 10 rfl (by decide) (by decide) rfl,
   (malformed_image_crashes idLab [10, 10, 4] (fun _ _ => (0, 0, 0)) [[honeyLm]]).2.2.2
      10 10 [honeyLm] [] rfl (by decide) (by decide) rfl
      (by
        simp [samplePixels, samplePixelsAux, honeyLm, pyTrunc,
          (by decide : (0 : ℕ) ∉ excludeSet)]
        norm_num)⟩

end Mediteasy

namespace Mediteasy

/-- A landmark whose scaled x-coordinate on a 10-wide image is -1/2. -/
def negLm : Landmark := ⟨-1 / 20, 1 / 2⟩

/-- Witness for C9 at the concrete landmark (-1/20, 1/2) on the 10×10
scenario image. -/
theorem negative_fraction_sampled_at_zero_witness :
    pyTrunc (negLm.x * (honeyImg.w : ℚ)) = 0 ∧
    samplePixels honeyImg [negLm] =
      [honeyImg.pix (pyTrunc (negLm.y * (honeyImg.h : ℚ))).toNat 0] :=
  negative_fraction_sampled_at_column_zero honeyImg negLm
    (by norm_num [negLm, honeyImg])
    (by norm_num [negLm, honeyImg])
    (by norm_num [negLm, honeyImg, pyTrunc])
    (by norm_num [negLm, honeyImg, pyTrunc])

/-- An in-bounds `getD` value is a member of the list. -/
lemma getD_mem (l : List ℝ) (i : ℕ) (hi : i < l.length) : l.getD i 0 ∈ l := by
  rw [list_getD_eq l i hi]
  exact List.getElem_mem hi

/-- `runDeltas` has exactly twelve entries. -/
lemma runDeltas_length (lab : Q3 → R3) (img : Image) (lms : List Landmark) :
    (runDeltas lab img lms).length = 12 :=
  deltasOf_length lab (user_lab lab (samplePixels img lms))

/-- Entry `i` of `runDeltas` is the Euclidean perceptual distance from the
mean sampled color to palette entry `i`. -/
lemma runDeltas_getD (lab : Q3 → R3) (img : Image) (lms : List Landmark)
    (i : ℕ) (hi : i < 12) :
    (runDeltas lab img lms).getD i 0 =
      dist3 ((palette_lab lab).getD i (0, 0, 0))
        (user_lab lab (samplePixels img lms)) := by
  unfold runDeltas deltasOf
  exact list_getD_map _ _ i
    (by simpa [palette_lab, palette_rgb, skin_palette] using hi) (0, 0, 0) 0

/-- Entry `i` of the normalized weight list of a run is the raw inverse
distance `1 / (d_i + eps)` divided by the raw weight sum. -/
lemma weightsOf_getD (lab : Q3 → R3) (img : Image) (lms : List Landmark)
    (i : ℕ) (hi : i < 12) :
    (weightsOf lab img lms).getD i 0 =
      (1 / ((runDeltas lab img lms).getD i 0 + eps)) /
        (rawWeights (runDeltas lab img lms)).sum := by
  have hlen : (runDeltas lab img lms).length = 12 := runDeltas_length lab img lms
  show (normWeights (runDeltas lab img lms)).getD i 0 = _
  unfold normWeights
  rw [list_getD_map _ _ i (by simp [rawWeights]; omega) 0 0]
  unfold rawWeights
  rw [list_getD_map _ _ i (by omega) 0 0]

/-- Entry `i` of `detailed_composition` carries the catalog name and group
of entry `i` and the weight times 100. -/
lemma compDetails_getD (ws : List ℝ) (h : ws.length = 12) (i : ℕ) (hi : i < 12) :
    (compDetails ws).getD i cdef =
      ⟨(skin_palette.getD i ("", (0, 0, 0), "")).1,
       ws.getD i 0 * 100,
       (skin_palette.getD i ("", (0, 0, 0), "")).2.2⟩ := by
  obtain ⟨w0, w1, w2, w3, w4, w5, w6, w7, w8, w9, w10, w11, rfl⟩ := exists_twelve ws h
  interval_cases i <;> rfl

/-- The percentages of `detailed_composition` sum to 100 times the weight
sum. -/
lemma compDetails_pct_sum (ws : List ℝ) (h : ws.length = 12) :
    ((compDetails ws).map (fun e => e.percentage)).sum = ws.sum * 100 := by
  obtain ⟨w0, w1, w2, w3, w4, w5, w6, w7, w8, w9, w10, w11, rfl⟩ := exists_twelve ws h
  show (List.map (fun e => e.percentage) (compDetails _)).sum = _
  simp [compDetails, skin_palette]
  ring

/-- Every entry of the run distance list is nonnegative. -/
lemma runDeltas_nonneg (lab : Q3 → R3) (img : Image) (lms : List Landmark) :
    ∀ x ∈ runDeltas lab img lms, 0 ≤ x :=
  deltasOf_nonneg lab _

/-- The weight list of a run has exactly twelve entries. -/
lemma weightsOf_length (lab : Q3 → R3) (img : Image) (lms : List Landmark) :
    (weightsOf lab img lms).length = 12 := by
  show (normWeights (runDeltas lab img lms)).length = 12
  rw [normWeights_length, runDeltas_length]

/-- The raw weight sum of a run is strictly positive. -/
lemma run_rawWeights_sum_pos (lab : Q3 → R3) (img : Image) (lms : List Landmark) :
    0 < (rawWeights (runDeltas lab img lms)).sum := by
  have h12 := runDeltas_length lab img lms
  apply rawWeights_sum_pos (runDeltas lab img lms) (runDeltas_nonneg lab img lms)
  intro hnil
  rw [hnil] at h12
  simp at h12

/-- The normalized weights of a run sum to one. -/
lemma weightsOf_sum (lab : Q3 → R3) (img : Image) (lms : List Landmark) :
    (weightsOf lab img lms).sum = 1 := by
  have h12 := runDeltas_length lab img lms
  show (normWeights (runDeltas lab img lms)).sum = 1
  apply normWeights_sum (runDeltas lab img lms) (runDeltas_nonneg lab img lms)
  intro hnil
  rw [hnil] at h12
  simp at h12

/-- Every normalized weight of a run is strictly positive. -/
lemma weightsOf_getD_pos (lab : Q3 → R3) (img : Image) (lms : List Landmark)
    (i : ℕ) (hi : i < 12) : 0 < (weightsOf lab img lms).getD i 0 := by
  rw [weightsOf_getD lab img lms i hi]
  have hd : 0 ≤ (runDeltas lab img lms).getD i 0 :=
    runDeltas_nonneg lab img lms _
      (getD_mem _ i (by rw [runDeltas_length lab img lms]; omega))
  have hS := run_rawWeights_sum_pos lab img lms
  have he := eps_pos
  positivity

/-- C1: for every successful classification, entry `i` of the weight
vector is `1/(d_i + eps)` (`eps = 1e-6`), where `d_i` is the Euclidean
perceptual distance from the mean sampled color to palette entry `i`,
normalized so the twelve weights sum to one; entry `i` of
`detailed_composition` carries percentage `weight_i * 100`, every
percentage is strictly positive, and the twelve percentages sum to 100. -/
theorem weights_inverse_distance_normalized (lab : Q3 → R3) (img : Image)
    (lms : List Landmark) (rest : List (List Landmark))
    (hs : samplePixels img lms ≠ []) :
    analyze_face_color lab img (lms :: rest) = .complete (analyzeOk lab img lms) ∧
    (analyzeOk lab img lms).raw_weights.sum = 1 ∧
    (analyzeOk lab img lms).detailed_composition.length = 12 ∧
    (∀ i, i < 12 →
      (runDeltas lab img lms).getD i 0 =
        dist3 ((palette_lab lab).getD i (0, 0, 0))
          (user_lab lab (samplePixels img lms)) ∧
      (analyzeOk lab img lms).raw_weights.getD i 0 =
        (1 / ((runDeltas lab img lms).getD i 0 + eps)) /
          (rawWeights (runDeltas lab img lms)).sum ∧
      compPct (analyzeOk lab img lms) i =
        (analyzeOk lab img lms).raw_weights.getD i 0 * 100 ∧
      0 < compPct (analyzeOk lab img lms) i) ∧
    ((analyzeOk lab img lms).detailed_composition.map (fun e => e.percentage)).sum
      = 100 := by
  have hw12 := weightsOf_length lab img lms
  refine ⟨by simp [analyze_face_color, hs], ?_, ?_, ?_, ?_⟩
  · rw [analyzeOk_eq]
    exact weightsOf_sum lab img lms
  · rw [analyzeOk_eq]
    exact compDetails_length _ hw12
  · intro i hi
    refine ⟨runDeltas_getD lab img lms i hi, ?_, ?_, ?_⟩
    · rw [analyzeOk_eq]
      exact weightsOf_getD lab img lms i hi
    · rw [analyzeOk_eq]
      unfold compPct
      simp only
      rw [compDetails_getD _ hw12 i hi]
    · unfold compPct
      rw [analyzeOk_eq]
      simp only
      rw [compDetails_getD _ hw12 i hi]
      simp only
      have := weightsOf_getD_pos lab img lms i hi
      positivity
  · rw [analyzeOk_eq]
    simp only
    rw [compDetails_pct_sum _ hw12, weightsOf_sum lab img lms]
    norm_num

/-- Witness for C1 on the Honey scenario input. -/
theorem weights_inverse_distance_normalized_witness :
    (analyzeOk idLab honeyImg [honeyLm]).raw_weights.sum = 1 ∧
    ((analyzeOk idLab honeyImg [honeyLm]).detailed_composition.map
      (fun e => e.percentage)).sum = 100 :=
  ⟨(weights_inverse_distance_normalized idLab honeyImg [honeyLm] []
      (by rw [honey_samples]; simp)).2.1,
   (weights_inverse_distance_normalized idLab honeyImg [honeyLm] []
      (by rw [honey_samples]; simp)).2.2.2.2⟩

/-- C6: the palette catalog is a fixed ordered sequence of exactly twelve
entries; the precomputed perceptual array has the same length, index `i`
corresponding to catalog index `i`; and for every successful
classification `detailed_composition` has exactly twelve entries whose
name and group at index `i` equal those of catalog entry `i`. -/
theorem palette_positional_invariants (lab : Q3 → R3) (img : Image)
    (lms : List Landmark) (rest : List (List Landmark))
    (hs : samplePixels img lms ≠ []) :
    skin_palette.length = 12 ∧
    (palette_lab lab).length = skin_palette.length ∧
    (∀ i, i < 12 →
      (palette_lab lab).getD i (0, 0, 0) = lab (palette_rgb.getD i (0, 0, 0))) ∧
    analyze_face_color lab img (lms :: rest) = .complete (analyzeOk lab img lms) ∧
    (analyzeOk lab img lms).detailed_composition.length = 12 ∧
    (∀ i, i < 12 →
      ((analyzeOk lab img lms).detailed_composition.getD i cdef).name =
        (skin_palette.getD i ("", (0, 0, 0), "")).1 ∧
      ((analyzeOk lab img lms).detailed_composition.getD i cdef).group =
        (skin_palette.getD i ("", (0, 0, 0), "")).2.2) := by
  have hw12 := weightsOf_length lab img lms
  refine ⟨rfl, by simp [palette_lab, palette_rgb], ?_, by simp [analyze_face_color, hs], ?_, ?_⟩
  · intro i hi
    exact list_getD_map lab palette_rgb i
      (by simpa [palette_rgb, skin_palette] using hi) (0, 0, 0) (0, 0, 0)
  · rw [analyzeOk_eq]
    exact compDetails_length _ hw12
  · intro i hi
    rw [analyzeOk_eq]
    simp only
    rw [compDetails_getD _ hw12 i hi]
    exact ⟨rfl, rfl⟩

/-- Witness for C6 on the Honey scenario input. -/
theorem palette_positional_invariants_witness :
    skin_palette.length = 12 ∧
    (analyzeOk idLab honeyImg [honeyLm]).detailed_composition.length = 12 :=
  ⟨(palette_positional_invariants idLab honeyImg [honeyLm] []
      (by rw [honey_samples]; simp)).1,
   (palette_positional_invariants idLab honeyImg [honeyLm] []
      (by rw [honey_samples]; simp)).2.2.2.2.1⟩

end Mediteasy

namespace Mediteasy

/-- The sum of the percentages of the composition entries tagged with
group `g`. -/
noncomputable def pctSumFor (comp : List CompEntry) (g : String) : ℝ :=
  ((comp.filter (fun e => e.group == g)).map (fun e => e.percentage)).sum

/-- Each accumulated group total times 100 is the percentage sum of the
entries carrying that tag, and the three totals add up to the weight
sum. -/
lemma group_decomposition (ws : List ℝ) (h : ws.length = 12) :
    (groupSum ws).warm * 100 = pctSumFor (compDetails ws) "warm" ∧
    (groupSum ws).cool * 100 = pctSumFor (compDetails ws) "cool" ∧
    (groupSum ws).neutral * 100 = pctSumFor (compDetails ws) "neutral" ∧
    (groupSum ws).warm + (groupSum ws).cool + (groupSum ws).neutral = ws.sum := by
  obtain ⟨w0, w1, w2, w3, w4, w5, w6, w7, w8, w9, w10, w11, rfl⟩ := exists_twelve ws h
  refine ⟨?_, ?_, ?_, ?_⟩
  · show (0 + w3 + w5 + w6 + w7 + w8 + w9 + w10) * 100 =
      w3 * 100 + (w5 * 100 + (w6 * 100 + (w7 * 100 + (w8 * 100 +
        (w9 * 100 + (w10 * 100 + 0))))))
    ring
  · show (0 + w0 + w1 + w11) * 100 = w0 * 100 + (w1 * 100 + (w11 * 100 + 0))
    ring
  · show (0 + w2 + w4) * 100 = w2 * 100 + (w4 * 100 + 0)
    ring
  · show (0 + w3 + w5 + w6 + w7 + w8 + w9 + w10) + (0 + w0 + w1 + w11) +
      (0 + w2 + w4) =
      w0 + (w1 + (w2 + (w3 + (w4 + (w5 + (w6 + (w7 + (w8 + (w9 +
        (w10 + (w11 + 0)))))))))))
    ring

/-- C5: for every successful classification, each of the three values of
`warm_cool_neutral_base` equals the sum of the percentages of the
`detailed_composition` entries carrying that group tag, and the three
values together sum to 100. -/
theorem group_sums_consistent (lab : Q3 → R3) (img : Image)
    (lms : List Landmark) (rest : List (List Landmark))
    (hs : samplePixels img lms ≠ []) :
    analyze_face_color lab img (lms :: rest) = .complete (analyzeOk lab img lms) ∧
    (analyzeOk lab img lms).warm_cool_neutral_base.warm =
      pctSumFor (analyzeOk lab img lms).detailed_composition "warm" ∧
    (analyzeOk lab img lms).warm_cool_neutral_base.cool =
      pctSumFor (analyzeOk lab img lms).detailed_composition "cool" ∧
    (analyzeOk lab img lms).warm_cool_neutral_base.neutral =
      pctSumFor (analyzeOk lab img lms).detailed_composition "neutral" ∧
    (analyzeOk lab img lms).warm_cool_neutral_base.warm +
      (analyzeOk lab img lms).warm_cool_neutral_base.cool +
      (analyzeOk lab img lms).warm_cool_neutral_base.neutral = 100 := by
  have hw12 := weightsOf_length lab img lms
  obtain ⟨h1, h2, h3, h4⟩ := group_decomposition (weightsOf lab img lms) hw12
  have hsum := weightsOf_sum lab img lms
  refine ⟨by simp [analyze_face_color, hs], ?_, ?_, ?_, ?_⟩
  · rw [analyzeOk_eq]
    exact h1
  · rw [analyzeOk_eq]
    exact h2
  · rw [analyzeOk_eq]
    exact h3
  · rw [analyzeOk_eq]
    show (groupSum (weightsOf lab img lms)).warm * 100 +
      (groupSum (weightsOf lab img lms)).cool * 100 +
      (groupSum (weightsOf lab img lms)).neutral * 100 = 100
    nlinarith [h4, hsum]

/-- Witness for C5 on the Honey scenario input. -/
theorem group_sums_consistent_witness :
    (analyzeOk idLab honeyImg [honeyLm]).warm_cool_neutral_base.warm +
      (analyzeOk idLab honeyImg [honeyLm]).warm_cool_neutral_base.cool +
      (analyzeOk idLab honeyImg [honeyLm]).warm_cool_neutral_base.neutral = 100 :=
  (group_sums_consistent idLab honeyImg [honeyLm] []
    (by rw [honey_samples]; simp)).2.2.2.2

/-- C2: for every successful classification, `best_match` is the name of
the palette entry at `raw_best_idx`; `raw_best_idx` is in bounds, attains
the minimum perceptual distance, is the lowest index attaining that
minimum, and its percentage is the maximum among `detailed_composition`. -/
theorem best_match_minimum_distance (lab : Q3 → R3) (img : Image)
    (lms : List Landmark) (rest : List (List Landmark))
    (hs : samplePixels img lms ≠ []) :
    analyze_face_color lab img (lms :: rest) = .complete (analyzeOk lab img lms) ∧
    (analyzeOk lab img lms).raw_best_idx < 12 ∧
    (analyzeOk lab img lms).best_match =
      (skin_palette.getD (analyzeOk lab img lms).raw_best_idx ("", (0, 0, 0), "")).1 ∧
    (∀ j, j < 12 →
      (runDeltas lab img lms).getD (analyzeOk lab img lms).raw_best_idx 0 ≤
        (runDeltas lab img lms).getD j 0) ∧
    (∀ j, j < (analyzeOk lab img lms).raw_best_idx →
      (runDeltas lab img lms).getD (analyzeOk lab img lms).raw_best_idx 0 <
        (runDeltas lab img lms).getD j 0) ∧
    (∀ j, j < 12 →
      compPct (analyzeOk lab img lms) j ≤
        compPct (analyzeOk lab img lms) (analyzeOk lab img lms).raw_best_idx) := by
  have hlen := runDeltas_length lab img lms
  have hne : runDeltas lab img lms ≠ [] := by
    intro h0
    rw [h0] at hlen
    simp at hlen
  have hbidx : (analyzeOk lab img lms).raw_best_idx =
      np_argmin (runDeltas lab img lms) := by
    rw [analyzeOk_eq]
  have hblt : np_argmin (runDeltas lab img lms) < 12 := by
    have := np_argmin_lt _ hne
    omega
  refine ⟨by simp [analyze_face_color, hs], ?_, ?_, ?_, ?_, ?_⟩
  · rw [hbidx]
    exact hblt
  · rw [analyzeOk_eq]
  · intro j hj
    rw [hbidx]
    exact np_argmin_min _ j (by omega)
  · intro j hj
    rw [hbidx] at hj ⊢
    exact np_argmin_first _ j hj
  · intro j hj
    have hw12 := weightsOf_length lab img lms
    have hpj : compPct (analyzeOk lab img lms) j =
        (weightsOf lab img lms).getD j 0 * 100 := by
      unfold compPct
      rw [analyzeOk_eq]
      simp only
      rw [compDetails_getD _ hw12 j hj]
    have hpb : compPct (analyzeOk lab img lms) ((analyzeOk lab img lms).raw_best_idx) =
        (weightsOf lab img lms).getD (np_argmin (runDeltas lab img lms)) 0 * 100 := by
      rw [hbidx]
      unfold compPct
      rw [analyzeOk_eq]
      simp only
      rw [compDetails_getD _ hw12 _ hblt]
    rw [hpj, hpb, weightsOf_getD _ _ _ j hj, weightsOf_getD _ _ _ _ hblt]
    have hdmin := np_argmin_min (runDeltas lab img lms) j (by omega)
    have hS := run_rawWeights_sum_pos lab img lms
    have he := eps_pos
    have hdb : 0 ≤ (runDeltas lab img lms).getD (np_argmin (runDeltas lab img lms)) 0 :=
      runDeltas_nonneg lab img lms _ (getD_mem _ _ (by omega))
    have h1 : 1 / ((runDeltas lab img lms).getD j 0 + eps) ≤
        1 / ((runDeltas lab img lms).getD (np_argmin (runDeltas lab img lms)) 0 + eps) := by
      apply one_div_le_one_div_of_le
      · linarith
      · linarith
    have h2 := (div_le_div_iff_of_pos_right hS).mpr h1
    exact mul_le_mul_of_nonneg_right h2 (by norm_num)

/-- Witness for C2 on the Honey scenario input. -/
theorem best_match_minimum_distance_witness :
    (analyzeOk idLab honeyImg [honeyLm]).raw_best_idx < 12 ∧
    (analyzeOk idLab honeyImg [honeyLm]).best_match =
      (skin_palette.getD (analyzeOk idLab honeyImg [honeyLm]).raw_best_idx
        ("", (0, 0, 0), "")).1 :=
  ⟨(best_match_minimum_distance idLab honeyImg [honeyLm] []
      (by rw [honey_samples]; simp)).2.1,
   (best_match_minimum_distance idLab honeyImg [honeyLm] []
      (by rw [honey_samples]; simp)).2.2.1⟩

end Mediteasy

namespace Mediteasy

/-- The mean of a single perceptual sample is that sample. -/
lemma labMean_single (v : R3) : labMean [v] = v := by
  simp [labMean]

/-- `List.getD` at an in-bounds index equals the indexed element. -/
lemma list_getD_eq_gen {α : Type} (l : List α) (d : α) (j : ℕ) (h : j < l.length) :
    l.getD j d = l[j] := by
  simp [List.getD_eq_getElem?_getD, List.getElem?_eq_getElem h]

/-- An in-bounds `getD` value is a member of the list. -/
lemma getD_mem_gen {α : Type} (l : List α) (d : α) (i : ℕ) (hi : i < l.length) :
    l.getD i d ∈ l := by
  rw [list_getD_eq_gen l d i hi]
  exact List.getElem_mem hi

/-- The rational inclusion `idLab` is injective. -/
lemma idLab_inj : ∀ p q : Q3, idLab p = idLab q → p = q := by
  intro p q h
  simp only [idLab, Prod.mk.injEq] at h
  obtain ⟨h1, h2, h3⟩ := h
  have e1 : p.1 = q.1 := by exact_mod_cast h1
  have e2 : p.2.1 = q.2.1 := by exact_mod_cast h2
  have e3 : p.2.2 = q.2.2 := by exact_mod_cast h3
  exact Prod.ext e1 (Prod.ext e2 e3)

/-- C4: on the synthetic 10×10 image filled with the RGB value of catalog
entry "Honey" and a single landmark at (0.5, 0.5) (index 0, outside both
exclusion ranges), classification succeeds with best match "Honey" and
"Honey" percentage strictly maximal among the twelve composition entries.
The hypothesis states the only property of the perceptual transform the
scenario needs: it does not collapse any other palette color onto the
Honey palette color (true of the real RGB→Lab conversion, which is
injective). -/
theorem honey_scenario_best_match (lab : Q3 → R3)
    (hinj : ∀ p ∈ palette_rgb, lab p = lab (palette_rgb.getD 7 (0, 0, 0)) →
      p = palette_rgb.getD 7 (0, 0, 0)) :
    analyze_face_color lab honeyImg [[honeyLm]] =
      .complete (analyzeOk lab honeyImg [honeyLm]) ∧
    (analyzeOk lab honeyImg [honeyLm]).best_match = "Honey" ∧
    (analyzeOk lab honeyImg [honeyLm]).raw_best_idx = 7 ∧
    (∀ j, j < 12 → j ≠ 7 →
      compPct (analyzeOk lab honeyImg [honeyLm]) j <
        compPct (analyzeOk lab honeyImg [honeyLm]) 7) := by
  have hs : samplePixels honeyImg [honeyLm] ≠ [] := by
    rw [honey_samples]
    simp
  have hq7 : palette_rgb.getD 7 (0, 0, 0) = ((35 : ℚ)/51, (26 : ℚ)/51, (7 : ℚ)/17) := by
    norm_num [palette_rgb, skin_palette]
  have huser : user_lab lab (samplePixels honeyImg [honeyLm]) =
      lab (palette_rgb.getD 7 (0, 0, 0)) := by
    rw [hq7, honey_samples]
    unfold user_lab
    have hsr : skin_rgb [(105, 130, 175)] =
        [((35 : ℚ)/51, (26 : ℚ)/51, (7 : ℚ)/17)] := by
      norm_num [skin_rgb]
    rw [hsr]
    simp only [List.map]
    exact labMean_single _
  have hpal : ∀ i, i < 12 →
      (palette_lab lab).getD i (0, 0, 0) = lab (palette_rgb.getD i (0, 0, 0)) :=
    fun i hi => list_getD_map lab palette_rgb i
      (by simpa [palette_rgb, skin_palette] using hi) (0, 0, 0) (0, 0, 0)
  have hd7 : (runDeltas lab honeyImg [honeyLm]).getD 7 0 = 0 := by
    rw [runDeltas_getD _ _ _ 7 (by omega), hpal 7 (by omega), huser, dist3_self]
  have hdj : ∀ j, j < 12 → j ≠ 7 →
      0 < (runDeltas lab honeyImg [honeyLm]).getD j 0 := by
    intro j hj hne7
    rw [runDeltas_getD _ _ _ j hj, hpal j hj, huser]
    apply dist3_pos
    intro heq
    have hjlen : j < palette_rgb.length := by
      simpa [palette_rgb, skin_palette] using hj
    have hthis := hinj _ (getD_mem_gen palette_rgb (0, 0, 0) j hjlen) heq
    rw [hq7] at hthis
    interval_cases j <;>
      first
      | exact hne7 rfl
      | norm_num [palette_rgb, skin_palette] at hthis
  have hlen := runDeltas_length lab honeyImg [honeyLm]
  have hmin : np_argmin (runDeltas lab honeyImg [honeyLm]) = 7 := by
    apply np_argmin_eq _ 7 (by omega)
    · intro j hj
      rw [hd7]
      exact runDeltas_nonneg lab honeyImg [honeyLm] _ (getD_mem _ j (by omega))
    · intro j hj7
      rw [hd7]
      exact hdj j (by omega) (by omega)
  have hw12 := weightsOf_length lab honeyImg [honeyLm]
  refine ⟨by simp [analyze_face_color, hs], ?_, ?_, ?_⟩
  · rw [analyzeOk_eq]
    simp only
    rw [hmin]
    rfl
  · rw [analyzeOk_eq]
    simp only
    exact hmin
  · intro j hj hne7
    have hpj : compPct (analyzeOk lab honeyImg [honeyLm]) j =
        (weightsOf lab honeyImg [honeyLm]).getD j 0 * 100 := by
      unfold compPct
      rw [analyzeOk_eq]
      simp only
      rw [compDetails_getD _ hw12 j hj]
    have hp7 : compPct (analyzeOk lab honeyImg [honeyLm]) 7 =
        (weightsOf lab honeyImg [honeyLm]).getD 7 0 * 100 := by
      unfold compPct
      rw [analyzeOk_eq]
      simp only
      rw [compDetails_getD _ hw12 7 (by omega)]
    rw [hpj, hp7, weightsOf_getD _ _ _ j hj, weightsOf_getD _ _ _ 7 (by omega), hd7]
    have hS := run_rawWeights_sum_pos lab honeyImg [honeyLm]
    have he := eps_pos
    have hdjp := hdj j hj hne7
    have h1 : 1 / ((runDeltas lab honeyImg [honeyLm]).getD j 0 + eps) <
        1 / (0 + eps) := by
      apply one_div_lt_one_div_of_lt
      · linarith
      · linarith
    have h2 := (div_lt_div_iff_of_pos_right hS).mpr h1
    exact mul_lt_mul_of_pos_right h2 (by norm_num)

/-- Witness for C4: the injectivity hypothesis discharged at the concrete
rational-inclusion transform. -/
theorem honey_scenario_best_match_witness :
    analyze_face_color idLab honeyImg [[honeyLm]] =
      .complete (analyzeOk idLab honeyImg [honeyLm]) ∧
    (analyzeOk idLab honeyImg [honeyLm]).best_match = "Honey" :=
  ⟨(honey_scenario_best_match idLab (fun p _ h => idLab_inj p _ h)).1,
   (honey_scenario_best_match idLab (fun p _ h => idLab_inj p _ h)).2.1⟩

end Mediteasy
